import Mathlib

/-!
# Anime catalogue browser: ingestion, normalisation, translation, query

A shallow embedding of `src/main.js`.  JavaScript values are given the narrowest
type the code needs:

* strings are `String` (titles and keywords are well-formed text, so a search
  over UTF-16 code units and a search over code points agree);
* a score or episode count is a number or the marker `'?'`;
* a year is `undefined`, `NaN` or an integer;
* the `Map` of records is the list of its values in insertion order;
* a `Set` of strings is the list of its members in insertion order.

Two library functions cannot be written down in full and are taken from the
environment `Env`: `String.prototype.toLowerCase` (full Unicode case mapping)
and `new Date(s).getFullYear()` (date parsing in the local time zone).  DOM
output and `localStorage` writes are outside the model (writes are taken to
succeed), and so is the share card.
-/

namespace AnimeSearch

/-! ## Values -/

/-- A JavaScript value that is `undefined`, `NaN` or an integer number
(`item.year`, `Number(els.yearSelect.value)`). -/
inductive Year where
  | undefined
  | nan
  | num (n : Int)
  deriving DecidableEq, Repr

/-- Truthiness of a year value: `undefined`, `NaN` and `0` are falsy. -/
def Year.truthy : Year → Bool
  | .num n => n != 0
  | _ => false

/-- Strict equality `a === b` on year values (`NaN` equals nothing). -/
def Year.strictEq : Year → Year → Bool
  | .undefined, .undefined => true
  | .num a, .num b => a == b
  | _, _ => false

/-- A number or the unknown marker `'?'` (`score`, `episodes`). -/
inductive Score where
  | unknown
  | num (q : ℚ)
  deriving DecidableEq

/-- The functions of the host that the model takes as given. -/
structure Env where
  /-- The `String.prototype.toLowerCase` function. -/
  toLowerCase : String → String
  /-- The value of `new Date(s).getFullYear()`: `NaN` for an invalid date. -/
  dateFullYear : String → Year

/-! ## Strings -/

/-- Code points in `[一-龥]`. -/
def isHan (c : Char) : Bool := 0x4e00 ≤ c.toNat && c.toNat ≤ 0x9fa5

/-- ECMAScript `WhiteSpace` and `LineTerminator` code points: what `trim`
strips and what `\s` matches. -/
def isJsSpace (c : Char) : Bool :=
  let n := c.toNat
  n == 0x09 || n == 0x0a || n == 0x0b || n == 0x0c || n == 0x0d || n == 0x20 ||
  n == 0xa0 || n == 0x1680 || (0x2000 ≤ n && n ≤ 0x200a) || n == 0x2028 ||
  n == 0x2029 || n == 0x202f || n == 0x205f || n == 0x3000 || n == 0xfeff

/-- Code points matched by `\d`. -/
def isJsDigit (c : Char) : Bool := 0x30 ≤ c.toNat && c.toNat ≤ 0x39

/-- The `String.prototype.trim` function. -/
def trim (s : String) : String :=
  ⟨((s.data.dropWhile isJsSpace).reverse.dropWhile isJsSpace).reverse⟩

/-- Whether `k` is an initial segment of `s`. -/
def startsWith : List Char → List Char → Bool
  | _, [] => true
  | [], _ :: _ => false
  | c :: s, d :: k => c == d && startsWith s k

/-- Whether `k` occurs in `s` as a contiguous block. -/
def includesChars : List Char → List Char → Bool
  | [], k => k.isEmpty
  | c :: s, k => startsWith (c :: s) k || includesChars s k

/-- The `String.prototype.includes` function. -/
def includes (s k : String) : Bool := includesChars s.data k.data

/-- `isChinese(str)`: `/[一-龥]/.test(str)`. -/
def isChinese (str : String) : Bool := str.data.any isHan

/-- `needsTranslation(str)`: non-empty, not Chinese, and with a character that
is neither Han, nor white space, nor a digit. -/
def needsTranslation (str : String) : Bool :=
  if str = "" then false
  else !isChinese str && str.data.any (fun c => !(isHan c || isJsSpace c || isJsDigit c))

/-! ## Records -/

/-- A raw catalogue row as the service sends it.  `none` stands for a field
that is `null` or missing.  `titles` holds `t?.title` of each entry. -/
structure RawRow where
  mal_id : Int
  titles : List (Option String) := []
  title_english : Option String := none
  title_japanese : Option String := none
  title : Option String := none
  title_synonyms : List (Option String) := []
  type : Option String := none
  status : Option String := none
  year : Option Int := none
  airedPropFromYear : Option Int := none
  airedFrom : Option String := none
  airedString : Option String := none
  episodes : Option ℚ := none
  score : Option ℚ := none
  imageJpg : Option String := none
  imageWebp : Option String := none
  url : Option String := none

/-- A canonical record, the value `normalizeAnime` builds. -/
structure Anime where
  id : Int
  title : String
  type : String
  status : String
  year : Year
  episodes : Score
  score : Score
  image : String
  url : Option String
  aired : String
  deriving DecidableEq

/-- `x || fallback` for an optional string: `null`, `undefined` and `''` are
falsy. -/
def orString (x : Option String) (fallback : String) : String :=
  match x with
  | some s => if s = "" then fallback else s
  | none => fallback

/-- `x || '?'` for an optional number: `null`, `undefined` and `0` are falsy. -/
def orUnknown (x : Option ℚ) : Score :=
  match x with
  | some q => if q = 0 then .unknown else .num q
  | none => .unknown

/-- `.filter(Boolean)` on optional strings: keeps the non-empty strings. -/
def filterBoolean (xs : List (Option String)) : List String :=
  xs.filterMap (fun x => match x with
    | some s => if s = "" then none else some s
    | none => none)

/-- `ordered.forEach(t => set.add(t)); Array.from(set)`: a `Set` keeps the
first insertion of each value, in insertion order. -/
def setFromList (xs : List String) : List String :=
  xs.foldl (fun set t => if t ∈ set then set else set ++ [t]) []

/-- `extractYear(row)`: the explicit year, else the structured aired-from
year, else the calendar year of the start date, else `undefined`. -/
def extractYear (env : Env) (row : RawRow) : Year :=
  match row.year.filter (fun y => y ≠ 0) with
  | some y => .num y
  | none =>
    match row.airedPropFromYear.filter (fun y => y ≠ 0) with
    | some y => .num y
    | none =>
      match row.airedFrom.filter (fun start => start ≠ "") with
      | some start => env.dateFullYear start
      | none => .undefined

/-- `getTitleCandidates(row)`. -/
def getTitleCandidates (row : RawRow) : List String :=
  let ordered := filterBoolean
    ((filterBoolean row.titles).map some ++
      [row.title_english, row.title_japanese, row.title] ++
      (filterBoolean row.title_synonyms).map some)
  setFromList ordered

/-- `pickBestTitle(row)`. -/
def pickBestTitle (row : RawRow) : String :=
  let candidates := getTitleCandidates row
  match candidates.find? isChinese with
  | some chinese => chinese
  | none => orString candidates.head? "Unknown"

/-- `normalizeAnime(row)`. -/
def normalizeAnime (env : Env) (row : RawRow) : Anime :=
  { id := row.mal_id
    title := pickBestTitle row
    type := orString row.type "TV"
    status := orString row.status ""
    year := extractYear env row
    episodes := orUnknown row.episodes
    score := orUnknown row.score
    image := orString row.imageJpg (orString row.imageWebp "")
    url := row.url
    aired := orString row.airedString "" }

/-! ## Query -/

/-- The values read from the four filter controls. -/
structure Dom where
  /-- The value of `Number(els.yearSelect.value)`. -/
  yearSelect : Year
  typeSelect : String
  statusSelect : String
  searchInput : String

/-- The operand `(x.score || 0)` of the comparator as a number: `none` is what
the subtraction turns into `NaN`.  The marker `'?'` is a non-empty string,
hence truthy, so `|| 0` does not replace it and `'?' - n` is `NaN`. -/
def scoreOperand : Score → Option ℚ
  | .unknown => none
  | .num q => some q

/-- The comparator `(a, b) => (b.score || 0) - (a.score || 0)`; `none` is
`NaN`. -/
def compareScore (a b : Anime) : Option ℚ :=
  match scoreOperand b.score, scoreOperand a.score with
  | some x, some y => some (x - y)
  | _, _ => none

/-- `SortCompare` of ECMAScript: a comparator result `NaN` counts as `+0`. -/
def sortCompare (cmp : α → α → Option ℚ) (a b : α) : ℚ :=
  match cmp a b with
  | some v => v
  | none => 0

/-- Insertion of `a` in front of the first element it must precede. -/
def sortInsert (cmp : α → α → Option ℚ) (a : α) : List α → List α
  | [] => [a]
  | b :: l => if sortCompare cmp a b ≤ 0 then a :: b :: l else b :: sortInsert cmp a l

/-- `Array.prototype.sort(cmp)`: a stable sort.  For a consistent comparator
every conforming engine returns this list; for an inconsistent one the order
is implementation-defined and the model fixes the order of a stable
insertion from the right. -/
def jsSort (cmp : α → α → Option ℚ) : List α → List α
  | [] => []
  | a :: l => sortInsert cmp a (jsSort cmp l)

/-- The keyword of `applyFilters`: `els.searchInput.value.trim().toLowerCase()`. -/
def keywordOf (env : Env) (dom : Dom) : String := env.toLowerCase (trim dom.searchInput)

/-- The predicate of the `filter` call in `applyFilters`. -/
def passesFilters (env : Env) (dom : Dom) (item : Anime) : Bool :=
  let year := dom.yearSelect
  let type := dom.typeSelect
  let status := dom.statusSelect
  let keyword := keywordOf env dom
  if year.truthy && item.year.truthy && !(item.year.strictEq year) then false
  else if type != "" && item.type != type then false
  else if status != "" && item.status != status then false
  else if keyword != "" && !(includes (env.toLowerCase item.title) keyword) then false
  else true

/-- `applyFilters()`, on the values of `animeMap`. -/
def applyFilters (env : Env) (dom : Dom) (animeMap : List Anime) : List Anime :=
  jsSort compareScore (animeMap.filter (passesFilters env dom))

/-- `String(n)` for an integer year. -/
def yearString (y : Year) : String :=
  match y with
  | .num n => if n = 0 then "" else toString n
  | _ => ""

/-- The key of the dedup pass of `renderList`: the lower-cased trimmed title,
a dash, and `item.year || ''`. -/
def dedupKey (env : Env) (item : Anime) : String :=
  trim (env.toLowerCase item.title) ++ "-" ++ yearString item.year

/-- The dedup pass of `renderList`: the records for which a card is built. -/
def renderList (env : Env) (list : List Anime) : List Anime :=
  (list.foldl (fun (acc : List String × List Anime) item =>
    let key := dedupKey env item
    if key ∈ acc.1 then acc else (acc.1 ++ [key], acc.2 ++ [item])) ([], [])).2

/-! ## Fetching one page with retries -/

/-- A response of the catalogue service: its HTTP status and the rows of
`json.data || []`. -/
structure Response where
  status : Nat
  data : List RawRow := []

/-- `res.ok`: the status is in the range 200 to 299. -/
def Response.ok (res : Response) : Bool := 200 ≤ res.status && res.status ≤ 299

/-- The errors a page fetch can raise. -/
inductive FetchError where
  /-- The error thrown on status 400. -/
  | badRequest
  /-- The error `HTTP <status>` thrown on the last attempt. -/
  | http (status : Nat)
  /-- The rejection of `fetch` or of `res.json()` itself. -/
  | rejected
  deriving DecidableEq

/-- What `fetchWithRetry` settles with: the records, or a raised error. -/
inductive FetchResult where
  | items (list : List Anime)
  | error (e : FetchError)
  deriving DecidableEq

/-- What the fetcher does that the outside can observe: a request for a page
of a year, and a cooperative sleep. -/
inductive Event where
  | request (year page : Nat)
  | sleep (ms : Nat)
  deriving DecidableEq

/-- Whether an event is a page request. -/
def Event.isRequest : Event → Bool
  | .request _ _ => true
  | .sleep _ => false

/-- The delays of the sleeps of a trace, in order. -/
def sleepsOf (trace : List Event) : List Nat :=
  trace.filterMap (fun e => match e with
    | .sleep ms => some ms
    | .request _ _ => none)

/-- The number of requests of a trace. -/
def countRequests (trace : List Event) : Nat := (trace.filter Event.isRequest).length

/-- The result of a run of `fetchWithRetry` and what it did. -/
structure FetchRun where
  result : FetchResult
  trace : List Event
  deriving DecidableEq

/-- `Math.round(num / den)`: the nearest integer, a half rounded up. -/
def mathRound (num den : Nat) : Nat := (2 * num + den) / (2 * den)

/-- `Math.min(4000, Math.round(delay * f))` for the factor `f = tenths / 10`
(1.8 or 1.6).  The source computes the product in IEEE doubles.  For an
integer `delay` up to 4000 the exact product `9 * delay / 5` or
`8 * delay / 5` has a fractional part among 0, .2, .4, .6, .8, at least 0.1
away from a half, and the double product is within 2e-12 of it, so
`Math.round` returns the exact rounding. -/
def nextDelay (delay tenths : Nat) : Nat := min 4000 (mathRound (delay * tenths) 10)

/-- The loop of `fetchWithRetry(url, retries)`.  The first argument is the
number of iterations left, `retries + 1 - attempt`: the loop condition
`attempt <= retries` holds exactly when it is positive.  The service answers
attempt `attempt` of this call with `svc (attempt - 1)`; `none` is a `fetch`
that rejects. -/
def fetchLoop (env : Env) (svc : Nat → Option Response) (year page retries : Nat) :
    Nat → Nat → Nat → FetchRun
  | 0, _, _ => { result := .items [], trace := [] }
  | left + 1, attempt, delay =>
    match svc (attempt - 1) with
    | none => { result := .error .rejected, trace := [.request year page] }
    | some res =>
      if res.ok then
        { result := .items (res.data.map (normalizeAnime env)), trace := [.request year page] }
      else if res.status = 429 then
        let rest := fetchLoop env svc year page retries left (attempt + 1) (nextDelay delay 18)
        { rest with trace := .request year page :: .sleep delay :: rest.trace }
      else if res.status = 400 then
        { result := .error .badRequest, trace := [.request year page] }
      else if attempt = retries then
        { result := .error (.http res.status), trace := [.request year page] }
      else
        let rest := fetchLoop env svc year page retries left (attempt + 1) (nextDelay delay 16)
        { rest with trace := .request year page :: .sleep delay :: rest.trace }

/-- `fetchWithRetry(url, retries)` for the URL of page `page` of year `year`. -/
def fetchWithRetry (env : Env) (svc : Nat → Option Response) (year page retries : Nat) :
    FetchRun :=
  fetchLoop env svc year page retries retries 1 800

/-! ## The store and the translation coordinator -/

/-- The mutable registries of the page.  `tasks` lists the resolution tasks
in flight: the pending promises of `translateToChinese`, each with the
record id and the source text its callbacks close over. -/
structure State where
  animeMap : List Anime
  translateCache : List (String × String)
  translateQueue : List String
  translateInFlight : Nat
  translateTotal : Nat
  tasks : List (Int × String)
  deriving DecidableEq

/-- `animeMap.get(id)`. -/
def mapGet (m : List Anime) (id : Int) : Option Anime := m.find? (fun x => x.id == id)

/-- `animeMap.set(item.id, item)`: replaces the entry of that id where it
stands, or appends. -/
def mapSet : List Anime → Anime → List Anime
  | [], item => [item]
  | x :: m, item => if x.id = item.id then item :: m else x :: mapSet m item

/-- `translateCache[text]` when truthy.  Only own entries with string values
are modelled; names inherited from `Object.prototype` are outside the model. -/
def cacheGet (cache : List (String × String)) (text : String) : Option String :=
  (cache.lookup text).filter (fun v => v ≠ "")

/-- `translateQueue.delete(text)`. -/
def setDelete (set : List String) (text : String) : List String :=
  set.filter (fun t => t ≠ text)

/-- `updateTitle(id, newTitle)`; `render` is the repaint it ends with. -/
def updateTitle (render : State → State) (s : State) (id : Int) (newTitle : String) : State :=
  match mapGet s.animeMap id with
  | none => s
  | some item => render { s with animeMap := mapSet s.animeMap { item with title := newTitle } }

/-- A `forEach` over records of the store that calls
`maybeTranslateTitle(item.id, item.title)`: the title is read when the
callback runs, from the object the store holds under that id. -/
def forEachLive (call : State → Int → String → State) (s : State) (ids : List Int) : State :=
  ids.foldl (fun s id =>
    match mapGet s.animeMap id with
    | some item => call s item.id item.title
    | none => s) s

/-- The first year of the year selector. -/
def YEAR_START : Nat := 1990

/-- The last year of the year selector. -/
def YEAR_END : Nat := 2025

/-- The years of the loop `for (let y = YEAR_END; y >= YEAR_START; y--)`. -/
def yearsDescending : List Int :=
  (List.range (YEAR_END - YEAR_START + 1)).map (fun i => (YEAR_END : Int) - (i : Int))

/-- The effect of `renderShareTable()` on the state: for each year, the first
twelve records of that year by score are offered for translation. -/
def renderShareTable (call : State → Int → String → State) (s : State) : State :=
  yearsDescending.foldl (fun s y =>
    let items := (jsSort compareScore
      (s.animeMap.filter (fun i => i.year.strictEq (.num y)))).take 12
    forEachLive call s (items.map (fun i => i.id))) s

/-- The effect of `render()` on the state: the DOM is outside the model, what
remains are the calls of `maybeTranslateTitle` in `renderShareTable` and on
the filtered list. -/
def render (call : State → Int → String → State) (env : Env) (dom : Dom) (s : State) : State :=
  let list := applyFilters env dom s.animeMap
  let s1 := renderShareTable call s
  forEachLive call s1 (list.map (fun i => i.id))

/-- `maybeTranslateTitle(id, currentTitle)`.  The first argument bounds the
depth of the re-entrancy `maybeTranslateTitle → updateTitle → render →
maybeTranslateTitle` (the call stack): a call at depth 0 is cut off and
leaves the state alone.  Only the cache-hit branch nests; starting a
resolution task adds it to `tasks`. -/
def maybeTranslateTitle (env : Env) (dom : Dom) : Nat → State → Int → String → State
  | 0, s, _, _ => s
  | depth + 1, s, id, currentTitle =>
    if currentTitle = "" ∨ needsTranslation currentTitle = false then s
    else
      match cacheGet s.translateCache currentTitle with
      | some cached =>
        updateTitle (render (maybeTranslateTitle env dom depth) env dom) s id cached
      | none =>
        if currentTitle ∈ s.translateQueue then s
        else
          { s with
            translateQueue := s.translateQueue ++ [currentTitle]
            translateTotal := s.translateTotal + 1
            translateInFlight := s.translateInFlight + 1
            tasks := s.tasks ++ [(id, currentTitle)] }

/-- `translateToChinese(text)` as a function of the answers of the two
providers (`none` is `null` or `undefined`). -/
def translateToChinese (mem gg : Option String) : Option String :=
  let mem := mem.filter (fun t => t ≠ "")
  let gg := gg.filter (fun t => t ≠ "")
  match mem.filter isChinese with
  | some m => some m
  | none =>
    match gg.filter isChinese with
    | some g => some g
    | none => mem.orElse (fun _ => gg)

/-- How a resolution task ends. -/
inductive Outcome where
  /-- The promise resolves, with these answers of the two providers. -/
  | resolved (mem gg : Option String)
  /-- The promise rejects. -/
  | rejected

/-- The callbacks of a resolution task: `then` or `catch`, then `finally`. -/
def completeTask (env : Env) (dom : Dom) (depth : Nat) (s : State) (task : Int × String)
    (outcome : Outcome) : State :=
  let currentTitle := task.2
  let s1 : State :=
    { s with
      translateQueue := setDelete s.translateQueue currentTitle
      translateInFlight := s.translateInFlight - 1
      tasks := s.tasks.erase task }
  match outcome with
  | .rejected => s1
  | .resolved mem gg =>
    match translateToChinese mem gg with
    | none => s1
    | some translated =>
      if translated = "" ∨ translated = currentTitle ∨ isChinese translated = false then s1
      else
        updateTitle (render (maybeTranslateTitle env dom depth) env dom)
          { s1 with translateCache := (currentTitle, translated) :: s1.translateCache }
          task.1 translated

/-- What `updateTranslateProgress` puts on the page. -/
structure Progress where
  pending : Nat
  done : Nat
  percent : Nat
  deriving DecidableEq

/-- `updateTranslateProgress()`: the numbers it writes to the progress bar and
its label.  `Math.max(0, a - b)` is the truncated subtraction.  The quotient
`done / translateTotal` is taken exactly; the double quotient of the source
can round differently only when `100 * done / translateTotal` is within
1e-13 of a half-integer, and never when `done` is 0 or equals the total. -/
def updateTranslateProgress (s : State) : Progress :=
  let pending := s.translateQueue.length + s.translateInFlight
  let done := s.translateTotal - pending
  let percent :=
    if s.translateTotal ≠ 0 then min 100 (mathRound (done * 100) s.translateTotal) else 100
  { pending := pending, done := done, percent := percent }

/-- The states of the coordinator that the page can be in: it starts with
empty queue and counters, and then calls of `maybeTranslateTitle`,
completions of tasks in flight, and changes of the store interleave. -/
inductive Reachable (env : Env) : State → Prop where
  | init (animeMap : List Anime) (cache : List (String × String)) :
      Reachable env
        { animeMap := animeMap, translateCache := cache, translateQueue := [],
          translateInFlight := 0, translateTotal := 0, tasks := [] }
  | call (dom : Dom) (depth : Nat) (id : Int) (title : String) {s : State} :
      Reachable env s → Reachable env (maybeTranslateTitle env dom depth s id title)
  | complete (dom : Dom) (depth : Nat) (task : Int × String) (outcome : Outcome) {s : State} :
      Reachable env s → task ∈ s.tasks → Reachable env (completeTask env dom depth s task outcome)
  | store (animeMap : List Anime) {s : State} :
      Reachable env s → Reachable env { s with animeMap := animeMap }

/-! ## Fetching the pages of a year -/

/-- The second `forEach` of `fetchYear`: `maybeTranslateTitle(item.id,
item.title)` for each fetched item.  An item that a later item of the same
page has replaced in the store is a detached object and keeps the title it
was built with; the others are the objects the store holds. -/
def translateItems (call : State → Int → String → State) : State → List Anime → State
  | s, [] => s
  | s, item :: rest =>
    let title :=
      if rest.any (fun x => x.id == item.id) then item.title
      else
        match mapGet s.animeMap item.id with
        | some live => live.title
        | none => item.title
    translateItems call (call s item.id title) rest

/-- The body of `if (items && items.length)` in `fetchYear`. -/
def storeItems (env : Env) (dom : Dom) (depth : Nat) (s : State) (items : List Anime) : State :=
  let s1 := items.foldl (fun s item => { s with animeMap := mapSet s.animeMap item }) s
  translateItems (maybeTranslateTitle env dom depth) s1 items

/-- A run of `fetchYear` so far: the state and what the fetcher did. -/
structure Run where
  state : State
  trace : List Event

/-- One iteration of the loop of `fetchYear(year, pages)`.  The service
answers the `n`-th request of the run with `svc n`. -/
def fetchYearPage (env : Env) (dom : Dom) (depth : Nat) (svc : Nat → Option Response)
    (year : Nat) (r : Run) (page : Nat) : Run :=
  let run := fetchWithRetry env (fun i => svc (countRequests r.trace + i)) year page 4
  match run.result with
  | .items items =>
    let s := if items ≠ [] then storeItems env dom depth r.state items else r.state
    { state := s, trace := r.trace ++ run.trace ++ [.sleep 500] }
  | .error _ => { state := r.state, trace := r.trace ++ run.trace }

/-- `fetchYear(year, pages)`, run with no other handler in between. -/
def fetchYear (env : Env) (dom : Dom) (depth : Nat) (svc : Nat → Option Response)
    (year pages : Nat) (s : State) : Run :=
  ((List.range pages).map (fun i => i + 1)).foldl (fetchYearPage env dom depth svc year)
    { state := s, trace := [] }

/-- A host whose `toLowerCase` maps the ASCII letters only; it agrees with
JavaScript on ASCII text, which is all the concrete examples use. -/
def asciiEnv : Env :=
  { toLowerCase := fun s => ⟨s.data.map Char.toLower⟩
    dateFullYear := fun _ => .nan }

/-! ## The statements of the specification, and the data of its scenarios -/

/-- The filter predicates as the specification words them: every filter that
is given is met by the record. -/
def MeetsFilters (env : Env) (dom : Dom) (r : Anime) : Prop :=
  (dom.yearSelect.truthy = true → r.year = dom.yearSelect) ∧
  (dom.typeSelect ≠ "" → r.type = dom.typeSelect) ∧
  (dom.statusSelect ≠ "" → r.status = dom.statusSelect) ∧
  (keywordOf env dom ≠ "" →
    includes (env.toLowerCase r.title) (keywordOf env dom) = true)

/-- The value of a score in the order of the specification: an unknown score
counts as zero. -/
def scoreValue : Score → ℚ
  | .unknown => 0
  | .num q => q

/-- Duplicates removed, keeping the first occurrence of each string. -/
def keepFirst : List String → List String
  | [] => []
  | x :: xs => x :: (keepFirst xs).filter (fun y => y ≠ x)

/-- The records kept when only the first record of each dedup key is kept. -/
def keepFirstKey (env : Env) : List Anime → List Anime
  | [] => []
  | x :: xs => x :: (keepFirstKey env xs).filter (fun y => dedupKey env y ≠ dedupKey env x)

/-- The candidate list as the specification words it: the localized titles,
the English title, the original-script title, the primary title, the
synonyms, with empty entries dropped and duplicates removed keeping the
first occurrence. -/
def titleCandidatesSpec (row : RawRow) : List String :=
  keepFirst (filterBoolean
    (row.titles ++ [row.title_english, row.title_japanese, row.title] ++ row.title_synonyms))

/-- A raw row with a primary title, a year and a score, nothing else. -/
def rawRow (id : Int) (title : String) (year : Int) (score : Option ℚ) : RawRow :=
  { mal_id := id, title := some title, year := some year, score := score }

/-- A raw row whose second localized title is in Chinese script, with a
duplicate and an empty entry among its titles. -/
def titanRow : RawRow :=
  { mal_id := 16498
    titles := [some "Shingeki no Kyojin", none, some "进击的巨人", some ""]
    title_english := some "Attack on Titan"
    title_japanese := some "進撃の巨人"
    title := some "Shingeki no Kyojin"
    title_synonyms := [some "AoT"] }

/-- Filter controls with the year 2020 selected and nothing else. -/
def domYear2020 : Dom :=
  { yearSelect := .num 2020, typeSelect := "", statusSelect := "", searchInput := "" }

/-- A record whose raw row carries no year and no air date at all. -/
def undatedRecord : Anime :=
  normalizeAnime asciiEnv { mal_id := 7, title := some "Mushishi", score := some 8 }

/-- Two records of 2020, the first without a score, the second scored 5. -/
def unratedThenRated : List Anime :=
  [normalizeAnime asciiEnv (rawRow 1 "Alpha" 2020 none),
   normalizeAnime asciiEnv (rawRow 2 "Beta" 2020 (some 5))]

/-- Two records of 2020 with the same title, the first without a score. -/
def unratedDuplicate : List Anime :=
  [normalizeAnime asciiEnv (rawRow 1 "AAA" 2020 none),
   normalizeAnime asciiEnv (rawRow 2 "AAA" 2020 (some 5))]

/-- The three records of the dedup scenario of the specification. -/
def scenarioRecords : List Anime :=
  [normalizeAnime asciiEnv (rawRow 1 "AAA" 2020 (some (81 / 10))),
   normalizeAnime asciiEnv (rawRow 2 "BBB" 2020 (some (15 / 2))),
   normalizeAnime asciiEnv (rawRow 3 "AAA" 2020 (some 9))]

/-- The invariant of the coordinator: the pending set lists the texts of the
tasks in flight, without repetition; the in-flight counter is its size; and
no pending text has a cache entry. -/
def CoordInv (s : State) : Prop :=
  s.tasks.map Prod.snd = s.translateQueue ∧
  s.translateQueue.Nodup ∧
  s.translateInFlight = s.translateQueue.length ∧
  ∀ t ∈ s.translateQueue, cacheGet s.translateCache t = none

/-- The state the page starts in when nothing is persisted. -/
def emptyState : State :=
  { animeMap := [], translateCache := [], translateQueue := [], translateInFlight := 0,
    translateTotal := 0, tasks := [] }

/-- The state after `maybeTranslateTitle(1, "Naruto")` on the empty state: one
task in flight. -/
def onePending : State := maybeTranslateTitle asciiEnv domYear2020 1 emptyState 1 "Naruto"

/-- The state after three titles were queued and the task of the first one
ended without a translation: two tasks in flight, three queued in total. -/
def twoPending : State :=
  completeTask asciiEnv domYear2020 1
    (maybeTranslateTitle asciiEnv domYear2020 1
      (maybeTranslateTitle asciiEnv domYear2020 1 onePending 2 "Bleach") 3 "One Piece")
    (1, "Naruto") (.resolved none none)

/-- A service that answers the first request with status 400 and every later
one with an empty page. -/
def badRequestThenEmpty : Nat → Option Response :=
  fun i => if i = 0 then some { status := 400 } else some { status := 200 }

/-- A service that answers the first four requests with status 500 and every
later one with an empty page. -/
def serverErrorThenEmpty : Nat → Option Response :=
  fun i => if i < 4 then some { status := 500 } else some { status := 200 }

/-! ## Query: filtering and sorting -/

theorem sortInsert_perm (cmp : α → α → Option ℚ) (a : α) (l : List α) :
    (sortInsert cmp a l).Perm (a :: l) := by
  induction l with
  | nil => simp [sortInsert]
  | cons b l ih =>
    simp only [sortInsert]
    split
    · exact List.Perm.refl _
    · exact ((List.Perm.cons b ih).trans (List.Perm.swap a b l))

theorem jsSort_perm (cmp : α → α → Option ℚ) (l : List α) : (jsSort cmp l).Perm l := by
  induction l with
  | nil => simp [jsSort]
  | cons a l ih =>
    simp only [jsSort]
    exact (sortInsert_perm cmp a _).trans (List.Perm.cons a ih)

theorem mem_applyFilters {env : Env} {dom : Dom} {animeMap : List Anime} {r : Anime} :
    r ∈ applyFilters env dom animeMap ↔ r ∈ animeMap ∧ passesFilters env dom r = true := by
  unfold applyFilters
  rw [(jsSort_perm _ _).mem_iff, List.mem_filter]

theorem Year.eq_of_strictEq {a b : Year} (h : a.strictEq b = true) : a = b := by
  cases a <;> cases b <;> simp_all [Year.strictEq]

/-- C1 (amended): every record `applyFilters` returns is a record of the
collection and meets each filter that is given: the type, the status, the
keyword (its lower-cased title contains the trimmed lower-cased keyword),
and the year whenever the record has a year of its own.  A record whose
year is `undefined` (or otherwise falsy) passes the year filter. -/
theorem applyFilters_meets_given_filters (env : Env) (dom : Dom) (animeMap : List Anime)
    (r : Anime) (h : r ∈ applyFilters env dom animeMap) :
    r ∈ animeMap ∧
    (dom.yearSelect.truthy = true → r.year.truthy = true → r.year = dom.yearSelect) ∧
    (dom.typeSelect ≠ "" → r.type = dom.typeSelect) ∧
    (dom.statusSelect ≠ "" → r.status = dom.statusSelect) ∧
    (keywordOf env dom ≠ "" →
      includes (env.toLowerCase r.title) (keywordOf env dom) = true) := by
  obtain ⟨hmem, hp⟩ := mem_applyFilters.mp h
  refine ⟨hmem, ?_⟩
  unfold passesFilters at hp
  simp only [] at hp
  split at hp
  · exact absurd hp (by simp)
  · rename_i hy
    split at hp
    · exact absurd hp (by simp)
    · rename_i ht
      split at hp
      · exact absurd hp (by simp)
      · rename_i hs
        split at hp
        · exact absurd hp (by simp)
        · rename_i hk
          refine ⟨?_, ?_, ?_, ?_⟩
          · intro h1 h2
            simp [h1, h2] at hy
            exact Year.eq_of_strictEq hy
          · intro h1
            simpa [h1] using ht
          · intro h1
            simpa [h1] using hs
          · intro h1
            simpa [h1] using hk

/-- C1, witness: the amended statement at the query for the year 2020 over a
collection holding one record without a year. -/
theorem applyFilters_meets_given_filters_witness :
    undatedRecord ∈ applyFilters asciiEnv domYear2020 [undatedRecord] ∧
    (undatedRecord ∈ [undatedRecord] ∧
    (domYear2020.yearSelect.truthy = true → undatedRecord.year.truthy = true →
      undatedRecord.year = domYear2020.yearSelect) ∧
    (domYear2020.typeSelect ≠ "" → undatedRecord.type = domYear2020.typeSelect) ∧
    (domYear2020.statusSelect ≠ "" → undatedRecord.status = domYear2020.statusSelect) ∧
    (keywordOf asciiEnv domYear2020 ≠ "" →
      includes (asciiEnv.toLowerCase undatedRecord.title)
        (keywordOf asciiEnv domYear2020) = true)) :=
  ⟨by decide!, applyFilters_meets_given_filters asciiEnv domYear2020 [undatedRecord]
    undatedRecord (by decide!)⟩

/-- C1, counterexample: with the year 2020 selected, `applyFilters` returns a
record whose year is `undefined`, which does not meet the year filter. -/
theorem applyFilters_returns_undated_record :
    undatedRecord ∈ applyFilters asciiEnv domYear2020 [undatedRecord] ∧
    domYear2020.yearSelect.truthy = true ∧
    undatedRecord.year = Year.undefined ∧
    ¬ MeetsFilters asciiEnv domYear2020 undatedRecord := by
  refine ⟨by decide!, by decide, by decide, ?_⟩
  intro h
  exact absurd (h.1 (by decide)) (by decide)

/-- C2, the code at the failing input: a record without a score followed by
a record scored 5 comes back in that order, so the result is not sorted by
descending score with the unknown score counted as zero. -/
theorem applyFilters_unknown_score_not_sorted :
    applyFilters asciiEnv domYear2020 unratedThenRated = unratedThenRated ∧
    unratedThenRated.map (fun r => (r.id, r.score)) = [(1, Score.unknown), (2, Score.num 5)] ∧
    ¬ (applyFilters asciiEnv domYear2020 unratedThenRated).Chain'
        (fun a b => scoreValue a.score ≥ scoreValue b.score) := by
  have h : applyFilters asciiEnv domYear2020 unratedThenRated = unratedThenRated := by decide!
  refine ⟨h, by decide!, ?_⟩
  rw [h]
  intro hc
  have h2 := List.Chain'.rel_head hc
  exact absurd h2 (by decide!)

/-- C3, the code at the failing input: of two records with the same key, the
first without a score and the second scored 5, the dedup pass keeps the one
without a score.  The scenario of the specification, whose scores are all
known, yields the records 3 and 2. -/
theorem renderList_keeps_unrated_duplicate :
    (renderList asciiEnv (applyFilters asciiEnv domYear2020 unratedDuplicate)).map
        (fun r => (r.id, r.score)) = [(1, Score.unknown)] ∧
    unratedDuplicate.map (fun r => (r.id, dedupKey asciiEnv r, scoreValue r.score)) =
      [(1, "aaa-2020", 0), (2, "aaa-2020", 5)] ∧
    (renderList asciiEnv (applyFilters asciiEnv domYear2020 scenarioRecords)).map
        (fun r => r.id) = [3, 2] := by
  refine ⟨by decide!, by decide!, by decide!⟩

/-! ## Title selection -/

theorem foldl_setAdd (acc xs : List String) :
    xs.foldl (fun set t => if t ∈ set then set else set ++ [t]) acc =
      acc ++ (keepFirst xs).filter (fun y => decide (y ∉ acc)) := by
  induction xs generalizing acc with
  | nil => simp [keepFirst]
  | cons x xs ih =>
    simp only [List.foldl_cons, keepFirst]
    by_cases hx : x ∈ acc
    · rw [if_pos hx, ih acc, List.filter_cons_of_neg (by simpa using hx), List.filter_filter]
      congr 1
      apply List.filter_congr
      intro y _
      by_cases hy : y ∈ acc
      · simp [hy]
      · have : y ≠ x := fun e => hy (e ▸ hx)
        simp [hy, this]
    · rw [if_neg hx, ih (acc ++ [x]), List.filter_cons_of_pos (by simpa using hx),
        List.filter_filter, List.append_assoc, List.singleton_append]
      congr 2
      apply List.filter_congr
      intro y _
      by_cases hy : y ∈ acc <;> by_cases hyx : y = x <;> simp [hy, hyx]

theorem setFromList_eq_keepFirst (xs : List String) : setFromList xs = keepFirst xs := by
  unfold setFromList
  rw [foldl_setAdd]
  simp

theorem filterBoolean_append (xs ys : List (Option String)) :
    filterBoolean (xs ++ ys) = filterBoolean xs ++ filterBoolean ys := by
  simp [filterBoolean]

theorem filterBoolean_map_some (xs : List (Option String)) :
    filterBoolean ((filterBoolean xs).map some) = filterBoolean xs := by
  induction xs with
  | nil => rfl
  | cons x xs ih =>
    cases x with
    | none => simpa [filterBoolean] using ih
    | some s =>
      by_cases hs : s = ""
      · simpa [filterBoolean, hs] using ih
      · simp only [filterBoolean] at ih ⊢
        simp [hs, ih]

theorem mem_keepFirst {y : String} {xs : List String} (h : y ∈ keepFirst xs) : y ∈ xs := by
  induction xs with
  | nil => simp [keepFirst] at h
  | cons x xs ih =>
    simp only [keepFirst, List.mem_cons, List.mem_filter] at h
    rcases h with h | h
    · exact h ▸ List.mem_cons_self _ _
    · exact List.mem_cons_of_mem _ (ih h.1)

theorem ne_empty_of_mem_filterBoolean {s : String} {xs : List (Option String)}
    (h : s ∈ filterBoolean xs) : s ≠ "" := by
  unfold filterBoolean at h
  rw [List.mem_filterMap] at h
  obtain ⟨x, _, hx⟩ := h
  cases x with
  | none => simp at hx
  | some t =>
    by_cases ht : t = ""
    · simp [ht] at hx
    · simp only [ht, if_false, Option.some.injEq] at hx
      exact hx ▸ ht

theorem getTitleCandidates_eq_spec (row : RawRow) :
    getTitleCandidates row = titleCandidatesSpec row := by
  unfold getTitleCandidates titleCandidatesSpec
  simp only [setFromList_eq_keepFirst, filterBoolean_append, filterBoolean_map_some]

/-- C4: for a raw row with at least one non-empty title candidate, the
candidate list of the code is the list the specification describes
(localized titles, English, original-script, primary, synonyms; empty
entries dropped; duplicates removed keeping the first occurrence), and
`pickBestTitle` returns the first candidate containing a character in
U+4E00..U+9FA5, or the first candidate of the list when none does. -/
theorem pickBestTitle_first_chinese_or_first (row : RawRow)
    (h : getTitleCandidates row ≠ []) :
    getTitleCandidates row = titleCandidatesSpec row ∧
    ((∃ before after, getTitleCandidates row = before ++ pickBestTitle row :: after ∧
        isChinese (pickBestTitle row) = true ∧ ∀ c ∈ before, isChinese c = false) ∨
     ((∀ c ∈ getTitleCandidates row, isChinese c = false) ∧
        (getTitleCandidates row).head? = some (pickBestTitle row))) := by
  refine ⟨getTitleCandidates_eq_spec row, ?_⟩
  unfold pickBestTitle
  simp only []
  cases hf : (getTitleCandidates row).find? isChinese with
  | some c =>
    left
    obtain ⟨hc, before, after, heq, hbefore⟩ := List.find?_eq_some.mp hf
    exact ⟨before, after, heq, hc, fun x hx => by simpa using hbefore x hx⟩
  | none =>
    right
    have hnone : ∀ c ∈ getTitleCandidates row, isChinese c = false := by
      intro c hc
      simpa using (List.find?_eq_none.mp hf) c hc
    refine ⟨hnone, ?_⟩
    cases hl : getTitleCandidates row with
    | nil => exact absurd hl h
    | cons c cs =>
      have hne : c ≠ "" := by
        have hmem : c ∈ getTitleCandidates row := by rw [hl]; exact List.mem_cons_self _ _
        rw [getTitleCandidates_eq_spec] at hmem
        exact ne_empty_of_mem_filterBoolean (mem_keepFirst hmem)
      simp [orString, hne]

/-- C4, witness: a row with titles in three scripts; the candidates are the
five distinct non-empty titles and the Chinese one is picked. -/
theorem pickBestTitle_first_chinese_or_first_witness :
    getTitleCandidates titanRow =
      ["Shingeki no Kyojin", "进击的巨人", "Attack on Titan", "進撃の巨人", "AoT"] ∧
    pickBestTitle titanRow = "进击的巨人" ∧
    (getTitleCandidates titanRow = titleCandidatesSpec titanRow ∧
    ((∃ before after, getTitleCandidates titanRow = before ++ pickBestTitle titanRow :: after ∧
        isChinese (pickBestTitle titanRow) = true ∧ ∀ c ∈ before, isChinese c = false) ∨
     ((∀ c ∈ getTitleCandidates titanRow, isChinese c = false) ∧
        (getTitleCandidates titanRow).head? = some (pickBestTitle titanRow)))) :=
  ⟨by decide, by decide, pickBestTitle_first_chinese_or_first titanRow (by decide)⟩

/-! ## Fetching one page -/

theorem Response.not_ok_of_status_429 {res : Response} (h : res.status = 429) :
    res.ok = false := by
  simp [Response.ok, h]

theorem Response.not_ok_of_status_400 {res : Response} (h : res.status = 400) :
    res.ok = false := by
  simp [Response.ok, h]

theorem fetchLoop_rate_limited (env : Env) (svc : Nat → Option Response)
    (year page retries left attempt delay : Nat)
    (h : (svc (attempt - 1)).map Response.status = some 429) :
    fetchLoop env svc year page retries (left + 1) attempt delay =
      { result := (fetchLoop env svc year page retries left (attempt + 1)
          (nextDelay delay 18)).result
        trace := .request year page :: .sleep delay ::
          (fetchLoop env svc year page retries left (attempt + 1) (nextDelay delay 18)).trace } := by
  cases hs : svc (attempt - 1) with
  | none => simp [hs] at h
  | some res =>
    have h429 : res.status = 429 := by simpa [hs] using h
    simp [fetchLoop, hs, Response.not_ok_of_status_429 h429, h429]

theorem fetchWithRetry_all_rate_limited (env : Env) (svc : Nat → Option Response)
    (year page : Nat) (h : ∀ i, i < 4 → (svc i).map Response.status = some 429) :
    fetchWithRetry env svc year page 4 =
      { result := .items []
        trace := [.request year page, .sleep 800, .request year page, .sleep 1440,
          .request year page, .sleep 2592, .request year page, .sleep 4000] } := by
  unfold fetchWithRetry
  rw [fetchLoop_rate_limited _ _ _ _ _ _ _ _ (h 0 (by omega)),
    fetchLoop_rate_limited _ _ _ _ _ _ _ _ (h 1 (by omega)),
    fetchLoop_rate_limited _ _ _ _ _ _ _ _ (h 2 (by omega)),
    fetchLoop_rate_limited _ _ _ _ _ _ _ _ (h 3 (by omega))]
  simp [fetchLoop, nextDelay, mathRound]

theorem fetchYearPage_rate_limited (env : Env) (dom : Dom) (depth : Nat)
    (svc : Nat → Option Response) (year page : Nat) (r : Run)
    (h : ∀ i, i < 4 → (svc (countRequests r.trace + i)).map Response.status = some 429) :
    fetchYearPage env dom depth svc year r page =
      { state := r.state
        trace := r.trace ++ [.request year page, .sleep 800, .request year page, .sleep 1440,
          .request year page, .sleep 2592, .request year page, .sleep 4000, .sleep 500] } := by
  have hp := fetchWithRetry_all_rate_limited env (fun i => svc (countRequests r.trace + i))
    year page h
  simp [fetchYearPage, hp]

theorem foldl_fetchYearPage_rate_limited (env : Env) (dom : Dom) (depth : Nat)
    (svc : Nat → Option Response) (year : Nat)
    (h : ∀ n, (svc n).map Response.status = some 429) (pages : List Nat) :
    ∀ r : Run, (pages.foldl (fetchYearPage env dom depth svc year) r).state = r.state := by
  induction pages with
  | nil => intro r; rfl
  | cons page pages ih =>
    intro r
    rw [List.foldl_cons, ih, fetchYearPage_rate_limited env dom depth svc year page r
      (fun i _ => h _)]

/-- C5: when the service answers the four attempts of a page request with
status 429, `fetchWithRetry` settles with the empty list and no error after
waiting 800, 1440, 2592 and 4000, and the iteration of `fetchYear` that
issued it leaves the state, the record collection included, as it was; a
one-page `fetchYear` returns the state it started from, and so does a
`fetchYear` of any number of pages all of whose requests are answered 429. -/
theorem fetchYear_rate_limited_page_unchanged (env : Env) (dom : Dom) (depth : Nat)
    (svc : Nat → Option Response) (year page : Nat) (r : Run)
    (h : ∀ i, i < 4 → (svc (countRequests r.trace + i)).map Response.status = some 429) :
    fetchWithRetry env (fun i => svc (countRequests r.trace + i)) year page 4 =
      { result := .items []
        trace := [.request year page, .sleep 800, .request year page, .sleep 1440,
          .request year page, .sleep 2592, .request year page, .sleep 4000] } ∧
    (fetchYearPage env dom depth svc year r page).state = r.state ∧
    (fetchYearPage env dom depth svc year r page).trace =
      r.trace ++ [.request year page, .sleep 800, .request year page, .sleep 1440,
        .request year page, .sleep 2592, .request year page, .sleep 4000, .sleep 500] ∧
    (r.trace = [] → (fetchYear env dom depth svc year 1 r.state).state = r.state) ∧
    ((∀ n, (svc n).map Response.status = some 429) →
      ∀ pages, (fetchYear env dom depth svc year pages r.state).state = r.state) := by
  have hpage := fetchYearPage_rate_limited env dom depth svc year
  refine ⟨fetchWithRetry_all_rate_limited env _ year page h, by rw [hpage page r h],
    by rw [hpage page r h], ?_, ?_⟩
  · intro ht
    have hr : ({ state := r.state, trace := [] } : Run) = r := by
      cases r
      simp_all
    simp [fetchYear, List.range_succ, hr, hpage 1 r h]
  · intro hall pages
    unfold fetchYear
    rw [foldl_fetchYearPage_rate_limited env dom depth svc year hall]

/-- C5, witness: a service that answers every request with status 429. -/
theorem fetchYear_rate_limited_page_unchanged_witness :
    (fetchYear asciiEnv domYear2020 3 (fun _ => some { status := 429 }) 2020 1
      { animeMap := scenarioRecords, translateCache := [], translateQueue := [],
        translateInFlight := 0, translateTotal := 0, tasks := [] }).state.animeMap =
      scenarioRecords :=
  congrArg State.animeMap
    ((fetchYear_rate_limited_page_unchanged asciiEnv domYear2020 3
      (fun _ => some { status := 429 }) 2020 1
      { state :=
          { animeMap := scenarioRecords, translateCache := [], translateQueue := [],
            translateInFlight := 0, translateTotal := 0, tasks := [] }
        trace := [] }
      (fun _ _ => rfl)).2.2.2.1 rfl)

theorem fetchLoop_bad_request (env : Env) (svc : Nat → Option Response)
    (year page retries : Nat) :
    ∀ (d left attempt delay : Nat), 1 ≤ attempt → d + 1 ≤ left → attempt + d ≤ retries →
      (∀ j, attempt ≤ j + 1 → j + 1 < attempt + d →
        ∃ res, svc j = some res ∧ res.ok = false ∧ res.status ≠ 400) →
      (svc (attempt + d - 1)).map Response.status = some 400 →
      (fetchLoop env svc year page retries left attempt delay).result = .error .badRequest ∧
      ∃ before, (fetchLoop env svc year page retries left attempt delay).trace =
          before ++ [.request year page] ∧
        countRequests before = d ∧ (sleepsOf before).length = d := by
  intro d
  induction d with
  | zero =>
    intro left attempt delay _ hleft _ _ hbad
    obtain ⟨l, rfl⟩ : ∃ l, left = l + 1 := ⟨left - 1, by omega⟩
    cases hs : svc (attempt - 1) with
    | none => simp [hs] at hbad
    | some res =>
      have h400 : res.status = 400 := by simpa [hs] using hbad
      refine ⟨by simp [fetchLoop, hs, Response.not_ok_of_status_400 h400, h400], [], ?_, rfl, rfl⟩
      simp [fetchLoop, hs, Response.not_ok_of_status_400 h400, h400]
  | succ d ih =>
    intro left attempt delay hatt hleft hret hprev hbad
    obtain ⟨l, rfl⟩ : ∃ l, left = l + 1 := ⟨left - 1, by omega⟩
    obtain ⟨res, hs, hok, h400⟩ := hprev (attempt - 1) (by omega) (by omega)
    have hne : attempt ≠ retries := by omega
    have hnext : ∀ delay2,
        (fetchLoop env svc year page retries l (attempt + 1) delay2).result =
          .error .badRequest ∧
        ∃ before, (fetchLoop env svc year page retries l (attempt + 1) delay2).trace =
            before ++ [.request year page] ∧
          countRequests before = d ∧ (sleepsOf before).length = d := by
      intro delay2
      apply ih l (attempt + 1) delay2 (by omega) (by omega) (by omega)
      · intro j h1 h2
        exact hprev j (by omega) (by omega)
      · have : attempt + 1 + d - 1 = attempt + (d + 1) - 1 := by omega
        rw [this]
        exact hbad
    by_cases h429 : res.status = 429
    · obtain ⟨hres, before, htrace, hreq, hsl⟩ := hnext (nextDelay delay 18)
      refine ⟨by simp [fetchLoop, hs, hok, h429, hres],
        .request year page :: .sleep delay :: before, ?_, ?_, ?_⟩
      · simp [fetchLoop, hs, hok, h429, htrace]
      · simpa [countRequests, Event.isRequest] using hreq
      · simpa [sleepsOf] using hsl
    · obtain ⟨hres, before, htrace, hreq, hsl⟩ := hnext (nextDelay delay 16)
      refine ⟨by simp [fetchLoop, hs, hok, h429, h400, hne, hres],
        .request year page :: .sleep delay :: before, ?_, ?_, ?_⟩
      · simp [fetchLoop, hs, hok, h429, h400, hne, htrace]
      · simpa [countRequests, Event.isRequest] using hreq
      · simpa [sleepsOf] using hsl

/-- C6: if attempt `k` of a `fetchWithRetry` call, within the attempt budget,
is answered with status 400 (the attempts before it having been answered
with statuses that are retried), the call raises the bad-request error and
its trace ends with the request of attempt `k`: `k` requests, `k - 1`
sleeps, and nothing after, whatever the budget `retries`. -/
theorem fetchWithRetry_bad_request_stops (env : Env) (svc : Nat → Option Response)
    (year page retries k : Nat) (hk : 1 ≤ k) (hkr : k ≤ retries)
    (hprev : ∀ j, j + 1 < k → ∃ res, svc j = some res ∧ res.ok = false ∧ res.status ≠ 400)
    (hbad : (svc (k - 1)).map Response.status = some 400) :
    (fetchWithRetry env svc year page retries).result = .error .badRequest ∧
    ∃ before, (fetchWithRetry env svc year page retries).trace =
        before ++ [.request year page] ∧
      countRequests before = k - 1 ∧ (sleepsOf before).length = k - 1 := by
  unfold fetchWithRetry
  apply fetchLoop_bad_request env svc year page retries (k - 1) retries 1 800
    (by omega) (by omega) (by omega)
  · intro j _ h2
    exact hprev j (by omega)
  · have : 1 + (k - 1) - 1 = k - 1 := by omega
    rw [this]
    exact hbad

/-- C6, witness: statuses 429, 503, 400 with a budget of 4: the call fails at
attempt 3 after two sleeps and does not use the fourth attempt. -/
theorem fetchWithRetry_bad_request_stops_witness :
    fetchWithRetry asciiEnv
        (fun i => some { status := if i = 0 then 429 else if i = 1 then 503 else 400 })
        2020 1 4 =
      { result := .error .badRequest
        trace := [.request 2020 1, .sleep 800, .request 2020 1, .sleep 1440,
          .request 2020 1] } ∧
    ((fetchWithRetry asciiEnv
        (fun i => some { status := if i = 0 then 429 else if i = 1 then 503 else 400 })
        2020 1 4).result = .error .badRequest ∧
    ∃ before, (fetchWithRetry asciiEnv
        (fun i => some { status := if i = 0 then 429 else if i = 1 then 503 else 400 })
        2020 1 4).trace = before ++ [.request 2020 1] ∧
      countRequests before = 3 - 1 ∧ (sleepsOf before).length = 3 - 1) :=
  ⟨by decide, fetchWithRetry_bad_request_stops asciiEnv
    (fun i => some { status := if i = 0 then 429 else if i = 1 then 503 else 400 })
    2020 1 4 3 (by decide) (by decide)
    (fun j hj => by
      have hj2 : j = 0 ∨ j = 1 := by omega
      rcases hj2 with rfl | rfl
      · exact ⟨{ status := 429 }, rfl, by decide, by decide⟩
      · exact ⟨{ status := 503 }, rfl, by decide, by decide⟩)
    rfl⟩

theorem le_nextDelay {delay tenths : Nat} (hd : delay ≤ 4000) (ht : 10 ≤ tenths) :
    delay ≤ nextDelay delay tenths := by
  unfold nextDelay mathRound
  have h1 : delay * 10 ≤ delay * tenths := Nat.mul_le_mul_left _ ht
  have h2 : delay ≤ (2 * (delay * tenths) + 10) / (2 * 10) := by
    rw [Nat.le_div_iff_mul_le (by norm_num)]
    omega
  exact le_min hd h2

theorem nextDelay_le (delay tenths : Nat) : nextDelay delay tenths ≤ 4000 := by
  unfold nextDelay
  exact min_le_left _ _

theorem nextDelay_18 (delay : Nat) : nextDelay delay 18 = min 4000 ((18 * delay + 5) / 10) := by
  unfold nextDelay mathRound
  congr 1
  omega

theorem fetchLoop_sleeps (env : Env) (svc : Nat → Option Response)
    (year page retries : Nat) :
    ∀ (left attempt delay : Nat), 1 ≤ attempt → delay ≤ 4000 →
      (∀ d ∈ sleepsOf (fetchLoop env svc year page retries left attempt delay).trace,
        delay ≤ d ∧ d ≤ 4000) ∧
      (sleepsOf (fetchLoop env svc year page retries left attempt delay).trace).Pairwise
        (fun a b => a ≤ b) ∧
      (∀ d, (sleepsOf (fetchLoop env svc year page retries left attempt delay).trace).head? =
        some d → d = delay) ∧
      (∀ i d d2,
        (sleepsOf (fetchLoop env svc year page retries left attempt delay).trace)[i]? = some d →
        (sleepsOf (fetchLoop env svc year page retries left attempt delay).trace)[i + 1]? =
          some d2 →
        (svc (attempt - 1 + i)).map Response.status = some 429 →
        d2 = min 4000 ((18 * d + 5) / 10)) := by
  intro left
  induction left with
  | zero =>
    intro attempt delay _ _
    simp [fetchLoop, sleepsOf]
  | succ l ih =>
    intro attempt delay hatt hdelay
    have step : ∀ tenths, 10 ≤ tenths →
        (tenths = 18 ∨ (svc (attempt - 1)).map Response.status ≠ some 429) →
        (∀ d ∈ delay :: sleepsOf
            (fetchLoop env svc year page retries l (attempt + 1) (nextDelay delay tenths)).trace,
          delay ≤ d ∧ d ≤ 4000) ∧
        (delay :: sleepsOf
            (fetchLoop env svc year page retries l (attempt + 1)
              (nextDelay delay tenths)).trace).Pairwise (fun a b => a ≤ b) ∧
        (∀ d, (delay :: sleepsOf
            (fetchLoop env svc year page retries l (attempt + 1)
              (nextDelay delay tenths)).trace).head? = some d → d = delay) ∧
        (∀ i d d2,
          (delay :: sleepsOf
            (fetchLoop env svc year page retries l (attempt + 1)
              (nextDelay delay tenths)).trace)[i]? = some d →
          (delay :: sleepsOf
            (fetchLoop env svc year page retries l (attempt + 1)
              (nextDelay delay tenths)).trace)[i + 1]? = some d2 →
          (svc (attempt - 1 + i)).map Response.status = some 429 →
          d2 = min 4000 ((18 * d + 5) / 10)) := by
      intro tenths ht hcase
      obtain ⟨hb, hp, hh, hi⟩ := ih (attempt + 1) (nextDelay delay tenths) (by omega)
        (nextDelay_le _ _)
      have hle := le_nextDelay hdelay ht
      refine ⟨?_, ?_, ?_, ?_⟩
      · intro d hd
        rcases List.mem_cons.mp hd with rfl | hd
        · exact ⟨le_refl _, hdelay⟩
        · exact ⟨le_trans hle (hb d hd).1, (hb d hd).2⟩
      · exact List.Pairwise.cons (fun d hd => le_trans hle (hb d hd).1) hp
      · intro d hd
        simpa using hd.symm
      · intro i d d2 h1 h2 h3
        cases i with
        | zero =>
          simp only [List.getElem?_cons_zero, Option.some.injEq] at h1
          simp only [List.getElem?_cons_succ] at h2
          have := hh d2 (by rw [List.head?_eq_getElem?]; exact h2)
          rcases hcase with rfl | hcase
          · rw [this, nextDelay_18, h1]
          · exact absurd (by simpa using h3) hcase
        | succ i =>
          simp only [List.getElem?_cons_succ] at h1 h2
          refine hi i d d2 h1 h2 ?_
          have : attempt + 1 - 1 + i = attempt - 1 + (i + 1) := by omega
          rw [this]
          exact h3
    cases hs : svc (attempt - 1) with
    | none =>
      have e : fetchLoop env svc year page retries (l + 1) attempt delay =
          { result := .error .rejected, trace := [.request year page] } := by
        simp [fetchLoop, hs]
      rw [e]
      simp [sleepsOf]
    | some res =>
      by_cases hok : res.ok = true
      · have e : fetchLoop env svc year page retries (l + 1) attempt delay =
            { result := .items (res.data.map (normalizeAnime env))
              trace := [.request year page] } := by
          simp [fetchLoop, hs, hok]
        rw [e]
        simp [sleepsOf]
      · by_cases h429 : res.status = 429
        · have e : sleepsOf (fetchLoop env svc year page retries (l + 1) attempt delay).trace =
              delay :: sleepsOf (fetchLoop env svc year page retries l (attempt + 1)
                (nextDelay delay 18)).trace := by
            simp [fetchLoop, hs, hok, h429, sleepsOf]
          rw [e]
          exact step 18 (by omega) (Or.inl rfl)
        · by_cases h400 : res.status = 400
          · have e : fetchLoop env svc year page retries (l + 1) attempt delay =
                { result := .error .badRequest, trace := [.request year page] } := by
              simp [fetchLoop, hs, hok, h429, h400]
            rw [e]
            simp [sleepsOf]
          · by_cases hlast : attempt = retries
            · have e : fetchLoop env svc year page retries (l + 1) attempt delay =
                  { result := .error (.http res.status), trace := [.request year page] } := by
                simp [fetchLoop, hs, hok, h429, h400, if_pos hlast]
              rw [e]
              simp [sleepsOf]
            · have e : sleepsOf
                  (fetchLoop env svc year page retries (l + 1) attempt delay).trace =
                  delay :: sleepsOf (fetchLoop env svc year page retries l (attempt + 1)
                    (nextDelay delay 16)).trace := by
                simp [fetchLoop, hs, hok, h429, h400, hlast, sleepsOf]
              rw [e]
              exact step 16 (by omega) (Or.inr (by simp [hs, h429]))

/-- C7: in every `fetchWithRetry` call, whatever the service answers and
whatever the attempt budget, the sleep delays start at 800, each is at least
the one before, none exceeds 4000, and the delay after a wait caused by
status 429 is `min(4000, round(1.8 * delay))`; four answers 429 in a row
with a budget of four wait 800, 1440, 2592, 4000. -/
theorem fetchWithRetry_backoff_delays (env : Env) (svc : Nat → Option Response)
    (year page retries : Nat) :
    (∀ d, (sleepsOf (fetchWithRetry env svc year page retries).trace).head? = some d →
      d = 800) ∧
    (sleepsOf (fetchWithRetry env svc year page retries).trace).Chain' (fun a b => a ≤ b) ∧
    (∀ d ∈ sleepsOf (fetchWithRetry env svc year page retries).trace, d ≤ 4000) ∧
    (∀ i d d2,
      (sleepsOf (fetchWithRetry env svc year page retries).trace)[i]? = some d →
      (sleepsOf (fetchWithRetry env svc year page retries).trace)[i + 1]? = some d2 →
      (svc i).map Response.status = some 429 →
      d2 = min 4000 ((18 * d + 5) / 10)) ∧
    ((∀ i, i < 4 → (svc i).map Response.status = some 429) →
      sleepsOf (fetchWithRetry env svc year page 4).trace = [800, 1440, 2592, 4000]) := by
  obtain ⟨hb, hp, hh, hi⟩ := fetchLoop_sleeps env svc year page retries retries 1 800
    (le_refl _) (by norm_num)
  refine ⟨hh, hp.chain', fun d hd => (hb d hd).2, ?_, ?_⟩
  · intro i d d2 h1 h2 h3
    refine hi i d d2 h1 h2 ?_
    have : 1 - 1 + i = i := by omega
    rw [this]
    exact h3
  · intro h
    rw [fetchWithRetry_all_rate_limited env svc year page h]
    rfl

/-- C7, witness: a service that always answers 429, with a budget of four. -/
theorem fetchWithRetry_backoff_delays_witness :
    sleepsOf (fetchWithRetry asciiEnv (fun _ => some { status := 429 }) 2020 1 4).trace =
      [800, 1440, 2592, 4000] :=
  (fetchWithRetry_backoff_delays asciiEnv (fun _ => some { status := 429 }) 2020 1 4).2.2.2.2
    (fun _ _ => rfl)

/-! ## The translation coordinator -/

theorem CoordInv.withMap {s : State} (h : CoordInv s) (m : List Anime) :
    CoordInv { s with animeMap := m } := h

theorem forEachLive_inv {call : State → Int → String → State}
    (hcall : ∀ s id t, CoordInv s → CoordInv (call s id t)) (ids : List Int) :
    ∀ s, CoordInv s → CoordInv (forEachLive call s ids) := by
  unfold forEachLive
  induction ids with
  | nil => intro s h; exact h
  | cons id ids ih =>
    intro s h
    simp only [List.foldl_cons]
    apply ih
    cases mapGet s.animeMap id with
    | none => exact h
    | some item => exact hcall _ _ _ h

theorem renderShareTable_inv {call : State → Int → String → State}
    (hcall : ∀ s id t, CoordInv s → CoordInv (call s id t)) :
    ∀ s, CoordInv s → CoordInv (renderShareTable call s) := by
  unfold renderShareTable
  generalize yearsDescending = years
  induction years with
  | nil => intro s h; exact h
  | cons y years ih =>
    intro s h
    simp only [List.foldl_cons]
    apply ih
    exact forEachLive_inv hcall _ _ h

theorem render_inv {call : State → Int → String → State} (env : Env) (dom : Dom)
    (hcall : ∀ s id t, CoordInv s → CoordInv (call s id t)) :
    ∀ s, CoordInv s → CoordInv (render call env dom s) := by
  intro s h
  unfold render
  exact forEachLive_inv hcall _ _ (renderShareTable_inv hcall _ h)

theorem updateTitle_inv {render : State → State}
    (hrender : ∀ s, CoordInv s → CoordInv (render s)) (s : State) (id : Int)
    (newTitle : String) (h : CoordInv s) : CoordInv (updateTitle render s id newTitle) := by
  unfold updateTitle
  cases mapGet s.animeMap id with
  | none => exact h
  | some item => exact hrender _ (h.withMap _)

theorem maybeTranslateTitle_inv (env : Env) (dom : Dom) :
    ∀ depth s id title, CoordInv s → CoordInv (maybeTranslateTitle env dom depth s id title) := by
  intro depth
  induction depth with
  | zero => intro s id title h; exact h
  | succ depth ih =>
    intro s id title h
    simp only [maybeTranslateTitle]
    split
    · exact h
    · split
      · exact updateTitle_inv (render_inv env dom ih) _ _ _ h
      · rename_i hcache
        split
        · exact h
        · rename_i hq
          obtain ⟨h1, h2, h3, h4⟩ := h
          refine ⟨?_, ?_, ?_, ?_⟩
          · simp [h1]
          · exact List.Nodup.append h2 (List.nodup_singleton _) (by simpa using hq)
          · simp [h3]
          · intro t ht
            rcases List.mem_append.mp ht with ht | ht
            · exact h4 t ht
            · rw [List.mem_singleton.mp ht]
              exact hcache

theorem map_snd_erase {tasks : List (Int × String)} {task : Int × String}
    (hmem : task ∈ tasks) (hnd : (tasks.map Prod.snd).Nodup) :
    (tasks.erase task).map Prod.snd = (tasks.map Prod.snd).filter (fun t => t ≠ task.2) := by
  induction tasks with
  | nil => simp at hmem
  | cons x xs ih =>
    rw [List.map_cons, List.nodup_cons] at hnd
    by_cases hx : x = task
    · subst hx
      rw [List.erase_cons_head, List.map_cons, List.filter_cons_of_neg (by simp)]
      symm
      rw [List.filter_eq_self]
      intro a ha
      have : a ≠ x.2 := fun e => hnd.1 (e ▸ ha)
      simpa using this
    · have hmem2 : task ∈ xs := by
        rcases List.mem_cons.mp hmem with h | h
        · exact absurd h.symm hx
        · exact h
      have hne : x.2 ≠ task.2 := by
        intro e
        apply hnd.1
        rw [e]
        exact List.mem_map_of_mem _ hmem2
      rw [List.erase_cons_tail (by simpa using hx), List.map_cons, List.map_cons,
        List.filter_cons_of_pos (by simpa using hne), ih hmem2 hnd.2]

theorem length_setDelete {set : List String} {t : String} (hnd : set.Nodup) (hmem : t ∈ set) :
    (setDelete set t).length = set.length - 1 := by
  have : setDelete set t = set.erase t := by
    rw [hnd.erase_eq_filter]
    unfold setDelete
    apply List.filter_congr
    intro x _
    by_cases hxt : x = t <;> simp [hxt]
  rw [this, List.length_erase_of_mem hmem]

theorem cacheGet_cons_ne {cache : List (String × String)} {k v t : String} (h : t ≠ k) :
    cacheGet ((k, v) :: cache) t = cacheGet cache t := by
  unfold cacheGet
  rw [List.lookup_cons]
  have : (t == k) = false := by simpa using h
  simp [this]

theorem completeTask_inv (env : Env) (dom : Dom) (depth : Nat) (s : State)
    (task : Int × String) (outcome : Outcome) (h : CoordInv s) (hmem : task ∈ s.tasks) :
    CoordInv (completeTask env dom depth s task outcome) := by
  obtain ⟨h1, h2, h3, h4⟩ := h
  have hq : task.2 ∈ s.translateQueue := h1 ▸ List.mem_map_of_mem _ hmem
  have hs1 : ∀ cache, (∀ t ∈ setDelete s.translateQueue task.2, cacheGet cache t = none) →
      CoordInv { s with
        translateQueue := setDelete s.translateQueue task.2
        translateInFlight := s.translateInFlight - 1
        tasks := s.tasks.erase task
        translateCache := cache } := by
    intro cache hcache
    refine ⟨?_, ?_, ?_, hcache⟩
    · show (s.tasks.erase task).map Prod.snd = setDelete s.translateQueue task.2
      rw [map_snd_erase hmem (h1 ▸ h2), h1]
      rfl
    · exact h2.filter _
    · show s.translateInFlight - 1 = (setDelete s.translateQueue task.2).length
      rw [length_setDelete h2 hq, h3]
  have hkeep := hs1 s.translateCache (fun t ht => h4 t (List.mem_filter.mp ht).1)
  unfold completeTask
  simp only []
  cases outcome with
  | rejected => exact hkeep
  | resolved mem gg =>
    simp only []
    cases translateToChinese mem gg with
    | none => exact hkeep
    | some translated =>
      simp only []
      split
      · exact hkeep
      · apply updateTitle_inv (render_inv env dom (maybeTranslateTitle_inv env dom depth))
        apply hs1
        intro t ht
        have hne : t ≠ task.2 := by simpa using (List.mem_filter.mp ht).2
        rw [cacheGet_cons_ne hne]
        exact h4 t (List.mem_filter.mp ht).1

theorem reachable_inv {env : Env} {s : State} (h : Reachable env s) : CoordInv s := by
  induction h with
  | init animeMap cache => exact ⟨rfl, List.nodup_nil, rfl, fun t ht => by simp at ht⟩
  | call dom depth id title _ ih => exact maybeTranslateTitle_inv env dom depth _ id title ih
  | complete dom depth task outcome _ hmem ih =>
    exact completeTask_inv env dom depth _ task outcome ih hmem
  | store animeMap _ ih => exact ih.withMap animeMap

/-- C8: in every reachable state of the coordinator the texts of the tasks in
flight are pairwise distinct and are exactly the pending set, and a call of
`maybeTranslateTitle` whose title is in the pending set returns the state it
was given: no task is started, the pending set and the total-queued counter
are unchanged, whatever the record id. -/
theorem maybeTranslateTitle_pending_is_noop (env : Env) (s : State) (h : Reachable env s) :
    (s.tasks.map Prod.snd).Nodup ∧
    s.tasks.map Prod.snd = s.translateQueue ∧
    ∀ (dom : Dom) (depth : Nat) (id : Int) (title : String), title ∈ s.translateQueue →
      maybeTranslateTitle env dom depth s id title = s ∧
      (maybeTranslateTitle env dom depth s id title).tasks = s.tasks ∧
      (maybeTranslateTitle env dom depth s id title).translateQueue = s.translateQueue ∧
      (maybeTranslateTitle env dom depth s id title).translateTotal = s.translateTotal := by
  obtain ⟨h1, h2, _, h4⟩ := reachable_inv h
  refine ⟨h1 ▸ h2, h1, ?_⟩
  intro dom depth id title hq
  have hnoop : maybeTranslateTitle env dom depth s id title = s := by
    cases depth with
    | zero => rfl
    | succ depth =>
      simp only [maybeTranslateTitle, h4 title hq, hq, if_true, ite_self]
  rw [hnoop]
  exact ⟨rfl, rfl, rfl, rfl⟩

/-- C8, witness: with the task for "Naruto" in flight, a second call for the
same text under another record id changes nothing. -/
theorem maybeTranslateTitle_pending_is_noop_witness :
    "Naruto" ∈ onePending.translateQueue ∧
    maybeTranslateTitle asciiEnv domYear2020 5 onePending 2 "Naruto" = onePending :=
  ⟨by decide,
    ((maybeTranslateTitle_pending_is_noop asciiEnv onePending
      (Reachable.call domYear2020 1 1 "Naruto" (Reachable.init [] []))).2.2
        domYear2020 5 2 "Naruto" (by decide)).1⟩

theorem reachable_pending_eq_twice_queue {env : Env} {s : State} (h : Reachable env s) :
    (updateTranslateProgress s).pending = 2 * s.translateQueue.length := by
  obtain ⟨_, _, h3, _⟩ := reachable_inv h
  simp only [updateTranslateProgress, h3]
  omega

/-- C9, the code at the failing input: in the reachable state with two texts
pending out of three queued, `updateTranslateProgress` reports 4 pending, 0
done and 0 percent, where the pending set holds 2 texts and one task has
completed. -/
theorem updateTranslateProgress_counts_pending_twice :
    Reachable asciiEnv twoPending ∧
    twoPending.translateQueue = ["Bleach", "One Piece"] ∧
    twoPending.translateTotal = 3 ∧
    updateTranslateProgress twoPending = { pending := 4, done := 0, percent := 0 } := by
  refine ⟨?_, by decide, by decide, by decide⟩
  exact Reachable.complete domYear2020 1 (1, "Naruto") (.resolved none none)
    (Reachable.call domYear2020 1 3 "One Piece"
      (Reachable.call domYear2020 1 2 "Bleach"
        (Reachable.call domYear2020 1 1 "Naruto" (Reachable.init [] []))))
    (by decide)

/-! ## Fetching the pages of a year -/

/-- C10, the code at the failing input: when the fetch of page 1 raises an
error, the request for page 2 follows with no sleep of 500 in between: on
status 400 no sleep at all separates the two requests, and on status 500 at
the last attempt none follows the fourth request of page 1. -/
theorem fetchYear_no_cooldown_after_error :
    (fetchYear asciiEnv domYear2020 1 badRequestThenEmpty 2020 2 emptyState).trace =
      [.request 2020 1, .request 2020 2, .sleep 500] ∧
    (fetchYear asciiEnv domYear2020 1 serverErrorThenEmpty 2020 2 emptyState).trace =
      [.request 2020 1, .sleep 800, .request 2020 1, .sleep 1280, .request 2020 1,
        .sleep 2048, .request 2020 1, .request 2020 2, .sleep 500] := by
  refine ⟨by decide, by decide⟩

/-! ## Query with known scores, and the dedup pass

What `applyFilters` and `renderList` do guarantee: the order by descending
score when no record of the collection has the unknown score, and a dedup
pass that keeps the first record of each key. -/

theorem sortCompare_known {a b : Anime} (ha : a.score ≠ .unknown) (hb : b.score ≠ .unknown) :
    sortCompare compareScore a b ≤ 0 ↔ scoreValue b.score ≤ scoreValue a.score := by
  cases hsa : a.score with
  | unknown => exact absurd hsa ha
  | num x =>
    cases hsb : b.score with
    | unknown => exact absurd hsb hb
    | num y => simp [sortCompare, compareScore, scoreOperand, scoreValue, hsa, hsb]

theorem sortInsert_sorted (a : Anime) (l : List Anime) (ha : a.score ≠ .unknown)
    (hl : ∀ r ∈ l, r.score ≠ .unknown)
    (hs : l.Pairwise (fun x y => scoreValue y.score ≤ scoreValue x.score)) :
    (sortInsert compareScore a l).Pairwise
      (fun x y => scoreValue y.score ≤ scoreValue x.score) := by
  induction l with
  | nil => simp [sortInsert]
  | cons b l ih =>
    have hb : b.score ≠ .unknown := hl b (List.mem_cons_self _ _)
    rw [List.pairwise_cons] at hs
    simp only [sortInsert]
    split
    · rename_i hle
      rw [sortCompare_known ha hb] at hle
      refine List.Pairwise.cons ?_ (List.Pairwise.cons hs.1 hs.2)
      intro y hy
      rcases List.mem_cons.mp hy with rfl | hy
      · exact hle
      · exact le_trans (hs.1 y hy) hle
    · rename_i hle
      rw [sortCompare_known ha hb] at hle
      refine List.Pairwise.cons ?_ (ih (fun r hr => hl r (List.mem_cons_of_mem _ hr)) hs.2)
      intro y hy
      rcases List.mem_cons.mp ((sortInsert_perm compareScore a l).mem_iff.mp hy) with rfl | hy
      · exact le_of_lt (not_le.mp hle)
      · exact hs.1 y hy

theorem jsSort_sorted_of_known (l : List Anime) (hl : ∀ r ∈ l, r.score ≠ .unknown) :
    (jsSort compareScore l).Pairwise (fun x y => scoreValue y.score ≤ scoreValue x.score) := by
  induction l with
  | nil => simp [jsSort]
  | cons a l ih =>
    simp only [jsSort]
    apply sortInsert_sorted a _ (hl a (List.mem_cons_self _ _))
    · intro r hr
      exact hl r (List.mem_cons_of_mem _ ((jsSort_perm compareScore l).mem_iff.mp hr))
    · exact ih (fun r hr => hl r (List.mem_cons_of_mem _ hr))

theorem applyFilters_sorted_of_known (env : Env) (dom : Dom) (animeMap : List Anime)
    (h : ∀ r ∈ animeMap, r.score ≠ .unknown) :
    (applyFilters env dom animeMap).Pairwise
      (fun x y => scoreValue y.score ≤ scoreValue x.score) := by
  unfold applyFilters
  exact jsSort_sorted_of_known _ (fun r hr => h r (List.mem_filter.mp hr).1)

theorem foldl_dedup (env : Env) (l : List Anime) :
    ∀ out : List Anime,
      (l.foldl (fun (acc : List String × List Anime) item =>
        if dedupKey env item ∈ acc.1 then acc
        else (acc.1 ++ [dedupKey env item], acc.2 ++ [item]))
        (out.map (dedupKey env), out)).2 =
      out ++ (keepFirstKey env l).filter
        (fun r => decide (dedupKey env r ∉ out.map (dedupKey env))) := by
  induction l with
  | nil => intro out; simp [keepFirstKey]
  | cons x xs ih =>
    intro out
    simp only [List.foldl_cons, keepFirstKey]
    by_cases hx : dedupKey env x ∈ out.map (dedupKey env)
    · rw [if_pos hx, ih out, List.filter_cons_of_neg (by simpa using hx), List.filter_filter]
      congr 1
      apply List.filter_congr
      intro y _
      by_cases hy : dedupKey env y ∈ out.map (dedupKey env)
      · simp [hy]
      · have : dedupKey env y ≠ dedupKey env x := fun e => hy (e ▸ hx)
        simp [hy, this]
    · have hacc : (out.map (dedupKey env) ++ [dedupKey env x], out ++ [x]) =
          ((out ++ [x]).map (dedupKey env), out ++ [x]) := by simp
      rw [if_neg hx, hacc, ih (out ++ [x]), List.filter_cons_of_pos (by simpa using hx),
        List.filter_filter, List.append_assoc, List.singleton_append]
      congr 2
      apply List.filter_congr
      intro y _
      by_cases hy : dedupKey env y ∈ out.map (dedupKey env) <;>
        by_cases hyx : dedupKey env y = dedupKey env x <;> simp [hy, hyx]

theorem renderList_eq_keepFirstKey (env : Env) (l : List Anime) :
    renderList env l = keepFirstKey env l := by
  unfold renderList
  have := foldl_dedup env l []
  simpa using this

theorem keepFirstKey_sublist (env : Env) (l : List Anime) : (keepFirstKey env l).Sublist l := by
  induction l with
  | nil => exact List.Sublist.slnil
  | cons x xs ih =>
    simp only [keepFirstKey]
    exact List.Sublist.cons₂ x ((List.filter_sublist _).trans ih)

theorem keepFirstKey_nodup (env : Env) (l : List Anime) :
    ((keepFirstKey env l).map (dedupKey env)).Nodup := by
  induction l with
  | nil => simp [keepFirstKey]
  | cons x xs ih =>
    simp only [keepFirstKey, List.map_cons, List.nodup_cons]
    refine ⟨?_, ?_⟩
    · intro hmem
      obtain ⟨y, hy, hk⟩ := List.mem_map.mp hmem
      have := (List.mem_filter.mp hy).2
      simp [hk] at this
    · exact (List.filter_sublist _).map _ |>.nodup ih

theorem keepFirstKey_best (env : Env) (l : List Anime)
    (hs : l.Pairwise (fun x y => scoreValue y.score ≤ scoreValue x.score)) :
    ∀ r ∈ l, ∃ k ∈ keepFirstKey env l,
      dedupKey env k = dedupKey env r ∧ scoreValue r.score ≤ scoreValue k.score := by
  induction l with
  | nil => intro r hr; simp at hr
  | cons x xs ih =>
    rw [List.pairwise_cons] at hs
    intro r hr
    simp only [keepFirstKey]
    by_cases hk : dedupKey env r = dedupKey env x
    · refine ⟨x, List.mem_cons_self _ _, hk.symm, ?_⟩
      rcases List.mem_cons.mp hr with rfl | hr
      · exact le_refl _
      · exact hs.1 r hr
    · have hr2 : r ∈ xs := by
        rcases List.mem_cons.mp hr with rfl | hr
        · exact absurd rfl hk
        · exact hr
      obtain ⟨k, hkmem, hkey, hval⟩ := ih hs.2 r hr2
      refine ⟨k, List.mem_cons_of_mem _ (List.mem_filter.mpr ⟨hkmem, ?_⟩), hkey, hval⟩
      simpa [hkey] using hk

theorem renderList_applyFilters_of_known (env : Env) (dom : Dom) (animeMap : List Anime)
    (h : ∀ r ∈ animeMap, r.score ≠ .unknown) :
    ((renderList env (applyFilters env dom animeMap)).map (dedupKey env)).Nodup ∧
    (renderList env (applyFilters env dom animeMap)).Sublist (applyFilters env dom animeMap) ∧
    ∀ r ∈ applyFilters env dom animeMap,
      ∃ k ∈ renderList env (applyFilters env dom animeMap),
        dedupKey env k = dedupKey env r ∧ scoreValue r.score ≤ scoreValue k.score := by
  rw [renderList_eq_keepFirstKey]
  exact ⟨keepFirstKey_nodup env _, keepFirstKey_sublist env _,
    keepFirstKey_best env _ (applyFilters_sorted_of_known env dom animeMap h)⟩

end AnimeSearch
